import Mathlib

/-!
Shallow embedding of the maintenance scheduling engine
(`generateScheduleForVehicle`, `updateVehicleStatuses`) of the vehicle
maintenance tracker.

Modelling conventions:
* SQLite rows become Lean structures; nullable columns become `Option`.
* Calendar dates are modelled as integer day numbers; `Date.setMonth`
  (calendar-month addition, an external library behaviour) is abstracted
  as a parameter `am : Int → Nat → Int` taking a day number and a month
  count.  `Date.setDate (+d)` is plain integer addition of days.
* JavaScript truthiness on a nullable integer column (`if (x)`) is
  `truthyNat`, which maps both `null` and `0` to `none`.
* `uuidv4()` is modelled by a fresh-id counter threaded through the
  state; generated ids are `toString counter`.
* The database is an explicit `EngineState` record of row lists; an SQL
  `UPDATE ... WHERE id = ?` becomes a positional map over the list.
* JS `a >= b - c` on numbers is written `b ≤ a + c` to avoid truncated
  `Nat` subtraction; the two are equivalent over the integers.
-/

namespace Sandbox

/-- Row of `vehicles` (the columns the engine reads). -/
structure Vehicle where
  id : String
  user_id : String
  year : Int
  make : String
  model : String
  engine : Option String
  drive_type : Option String
  current_mileage : Nat
deriving Repr, DecidableEq

/-- Row of `users` (the columns the engine reads). -/
structure UserPrefs where
  id : String
  reminder_lead_miles : Nat
  reminder_lead_days : Nat
deriving Repr, DecidableEq

/-- Row of `service_definitions` (the columns the engine reads). -/
structure ServiceDefinition where
  id : String
  is_active : Bool
deriving Repr, DecidableEq

/-- Row of `schedule_rules` (the columns the engine reads). -/
structure ScheduleRule where
  id : String
  service_definition_id : String
  year_min : Option Int
  year_max : Option Int
  make : Option String
  model : Option String
  engine : Option String
  drive_type : Option String
  mileage_interval : Option Nat
  month_interval : Option Nat
  is_combined : Bool
  priority : Int
deriving Repr, DecidableEq

/-- Status column of `vehicle_schedules`. -/
inductive Status where
  | ok
  | upcoming
  | overdue
deriving Repr, DecidableEq

/-- Row of `vehicle_schedules`. -/
structure VehicleSchedule where
  id : String
  vehicle_id : String
  service_definition_id : String
  mileage_interval : Option Nat
  month_interval : Option Nat
  is_combined : Bool
  next_due_mileage : Option Nat
  next_due_date : Option Int
  status : Status
deriving Repr, DecidableEq

/-- Row of `service_history` (the columns the engine writes). -/
structure ServiceHistoryRecord where
  id : String
  vehicle_id : String
  vehicle_schedule_id : Option String
  service_definition_id : String
  completed_date : Int
  mileage_at_service : Nat
  notes : String
deriving Repr, DecidableEq

/-- The database tables the engine touches, plus the fresh-id counter. -/
structure EngineState where
  vehicles : List Vehicle
  users : List UserPrefs
  serviceDefs : List ServiceDefinition
  rules : List ScheduleRule
  schedules : List VehicleSchedule
  history : List ServiceHistoryRecord
  fresh : Nat
deriving Repr, DecidableEq

/-- JavaScript truthiness of a nullable integer column: both `null` and
`0` are falsy (`if (rule.mileage_interval)` etc.). -/
def truthyNat : Option Nat → Option Nat
  | none => none
  | some n => if n = 0 then none else some n

/-- SQL `LOWER` (ASCII case folding), modelled character by character on
the string's character list. -/
def strLower (s : String) : String :=
  String.mk (s.data.map Char.toLower)

/-- `LOWER(a) = LOWER(b)` in the matching query. -/
def lowerEq (a b : String) : Bool :=
  strLower a == strLower b

/-- One optional string filter column of `schedule_rules`:
`col IS NULL OR LOWER(col) = LOWER(?)`. -/
def optFilter (col : Option String) (v : String) : Bool :=
  match col with
  | none => true
  | some x => lowerEq x v

/-- The WHERE clause of the rule-matching query in
`generateScheduleForVehicle`.  The vehicle's nullable `engine` and
`drive_type` are passed as `vehicle.engine || ''`, i.e. `getD ""`. -/
def ruleMatches (r : ScheduleRule) (v : Vehicle) : Bool :=
  optFilter r.make v.make &&
  optFilter r.model v.model &&
  (match r.year_min with | none => true | some y => decide (y ≤ v.year)) &&
  (match r.year_max with | none => true | some y => decide (v.year ≤ y)) &&
  optFilter r.engine (v.engine.getD "") &&
  optFilter r.drive_type (v.drive_type.getD "")

/-- The JOIN with `service_definitions` filtering `is_active = 1`. -/
def sdActive (defs : List ServiceDefinition) (sdid : String) : Bool :=
  defs.any (fun d => d.id == sdid && d.is_active)

/-- `ORDER BY sr.priority DESC` as a relation on rules. -/
def priorityDesc (a b : ScheduleRule) : Prop :=
  b.priority ≤ a.priority

instance : DecidableRel priorityDesc :=
  fun a b => inferInstanceAs (Decidable (b.priority ≤ a.priority))

instance : IsTotal ScheduleRule priorityDesc :=
  ⟨fun a b => le_total b.priority a.priority⟩

instance : IsTrans ScheduleRule priorityDesc :=
  ⟨fun _ _ _ hab hbc => le_trans hbc hab⟩

/-- Candidate rules for a vehicle: the matching query's result, ordered
by `priority DESC` (ties are in unspecified order in SQL; the model
fixes a concrete stable sort). -/
def matchingRules (s : EngineState) (v : Vehicle) : List ScheduleRule :=
  (s.rules.filter
    (fun r => sdActive s.serviceDefs r.service_definition_id && ruleMatches r v)).insertionSort
      priorityDesc

/-- Deduplication by `service_definition_id` keeping the first (i.e.
highest-priority) occurrence, with the `seen` set made explicit. -/
def dedupByService : List ScheduleRule → List String → List ScheduleRule
  | [], _ => []
  | r :: rs, seen =>
    if r.service_definition_id ∈ seen then
      dedupByService rs seen
    else
      r :: dedupByService rs (r.service_definition_id :: seen)

/-- An assumed-service backfill row as inserted into `service_history`. -/
def mkBackfill (hid vehId schedId sdid : String) (now : Int) (m : Nat) :
    ServiceHistoryRecord :=
  { id := hid
    vehicle_id := vehId
    vehicle_schedule_id := some schedId
    service_definition_id := sdid
    completed_date := now
    mileage_at_service := m
    notes := "Assumed on-schedule service at " ++ toString m ++ " mi (auto-generated)" }

/-- `SELECT id FROM service_history WHERE vehicle_schedule_id = ? AND
mileage_at_service = ?` (as a Boolean existence check). -/
def hasBackfill (hist : List ServiceHistoryRecord) (schedId : String) (m : Nat) : Bool :=
  hist.any (fun h => h.vehicle_schedule_id == some schedId && h.mileage_at_service == m)

/-- `nextDueMileage` as computed by the generation loop: for a truthy
mileage interval, `floor(M / interval) * interval + interval` when
`M > 0`, the bare interval when `M = 0`, else null. -/
def genNextDueMileage (M : Nat) (mi : Option Nat) : Option Nat :=
  match truthyNat mi with
  | some interval =>
    if 0 < M then some (M / interval * interval + interval)
    else some interval
  | none => none

/-- `lastServiceMileage` as computed by the generation loop: the most
recent interval boundary at or below the current mileage, only when the
interval is truthy and `M > 0`. -/
def genLastServiceMileage (M : Nat) (mi : Option Nat) : Option Nat :=
  match truthyNat mi with
  | some interval => if 0 < M then some (M / interval * interval) else none
  | none => none

/-- `nextDueDate` as computed by the generation loop: `now +
monthInterval` for a truthy month interval, else null. -/
def genNextDueDate (am : Int → Nat → Int) (now : Int) (mo : Option Nat) : Option Int :=
  match truthyNat mo with
  | some m => some (am now m)
  | none => none

/-- The per-rule body of the generation loop in
`generateScheduleForVehicle`: computes the new `vehicle_schedules` row,
inserts it, and inserts the assumed-history backfill when
`lastServiceMileage > 0`. -/
def insertForRule (am : Int → Nat → Int) (now : Int) (v : Vehicle)
    (r : ScheduleRule) (s : EngineState) : EngineState :=
  let nextDueMileage := genNextDueMileage v.current_mileage r.mileage_interval
  let lastServiceMileage := genLastServiceMileage v.current_mileage r.mileage_interval
  let nextDueDate := genNextDueDate am now r.month_interval
  let schedId := toString s.fresh
  let entry : VehicleSchedule :=
    { id := schedId
      vehicle_id := v.id
      service_definition_id := r.service_definition_id
      mileage_interval := r.mileage_interval
      month_interval := r.month_interval
      is_combined := r.is_combined
      next_due_mileage := nextDueMileage
      next_due_date := nextDueDate
      status := Status.ok }
  match lastServiceMileage with
  | some lastB =>
    if 0 < lastB then
      { s with
        schedules := s.schedules ++ [entry]
        history :=
          mkBackfill (toString (s.fresh + 1)) v.id schedId r.service_definition_id now lastB
            :: s.history
        fresh := s.fresh + 2 }
    else
      { s with schedules := s.schedules ++ [entry], fresh := s.fresh + 1 }
  | none =>
    { s with schedules := s.schedules ++ [entry], fresh := s.fresh + 1 }

/-- Phase 1 of `updateVehicleStatuses`, effect on a single
`vehicle_schedules` row: when the current mileage has reached
`next_due_mileage`, advance it to the next interval boundary (and, if a
month interval exists, reset `next_due_date` to `now + monthInterval`). -/
def advanceEntry (am : Int → Nat → Int) (now : Int) (M : Nat)
    (sch : VehicleSchedule) : VehicleSchedule :=
  match truthyNat sch.mileage_interval, sch.next_due_mileage with
  | some interval, some ndm =>
    if ndm ≤ M then
      let lastServiceMileage := M / interval * interval
      let newNextDueMileage := lastServiceMileage + interval
      -- Only advance if the schedule actually needs to move forward
      if ndm < newNextDueMileage then
        { sch with
          next_due_mileage := some newNextDueMileage
          next_due_date :=
            match truthyNat sch.month_interval with
            | some m => some (am now m)
            | none => sch.next_due_date }
      else sch
    else sch
  | _, _ => sch

/-- Phase 1 of `updateVehicleStatuses`, effect on `service_history` for a
single row: under the same guards as `advanceEntry`, insert a backfill at
`lastServiceMileage` when it is positive and no record for that
`(vehicle_schedule_id, mileage_at_service)` pair exists yet.  Returns the
new history table and fresh-id counter. -/
def backfillFor (now : Int) (v : Vehicle) (sch : VehicleSchedule)
    (hist : List ServiceHistoryRecord) (fresh : Nat) :
    List ServiceHistoryRecord × Nat :=
  match truthyNat sch.mileage_interval, sch.next_due_mileage with
  | some interval, some ndm =>
    if ndm ≤ v.current_mileage then
      let lastServiceMileage := v.current_mileage / interval * interval
      if ndm < lastServiceMileage + interval then
        if 0 < lastServiceMileage ∧ hasBackfill hist sch.id lastServiceMileage = false then
          (mkBackfill (toString fresh) v.id sch.id sch.service_definition_id now
              lastServiceMileage :: hist,
            fresh + 1)
        else (hist, fresh)
      else (hist, fresh)
    else (hist, fresh)
  | _, _ => (hist, fresh)

/-- Phase 1 over the whole `vehicle_schedules` table: rows of other
vehicles (outside the `WHERE vehicle_id = ?` selection) pass through
unchanged; the vehicle's rows are advanced and may insert backfills. -/
def phase1 (am : Int → Nat → Int) (now : Int) (v : Vehicle) :
    List VehicleSchedule → List ServiceHistoryRecord → Nat →
    List VehicleSchedule × List ServiceHistoryRecord × Nat
  | [], hist, fresh => ([], hist, fresh)
  | sch :: rest, hist, fresh =>
    if sch.vehicle_id == v.id then
      let hf := backfillFor now v sch hist fresh
      let rhf := phase1 am now v rest hf.1 hf.2
      (advanceEntry am now v.current_mileage sch :: rhf.1, rhf.2)
    else
      let rhf := phase1 am now v rest hist fresh
      (sch :: rhf.1, rhf.2)

/-- Phase 2 of `updateVehicleStatuses` for a single row: the sequential
status computation (mileage check, then date check, then the
combined/non-combined override block). -/
def computeStatus (leadMiles leadDays : Nat) (now : Int) (M : Nat)
    (sch : VehicleSchedule) : Status :=
  -- Check mileage-based status
  let status1 : Status :=
    match sch.next_due_mileage with
    | none => Status.ok
    | some ndm =>
      if ndm ≤ M then Status.overdue
      else if ndm ≤ M + leadMiles then Status.upcoming
      else Status.ok
  let leadDate : Int := now + leadDays
  -- Check time-based status (if combined, overdue wins)
  let status2 : Status :=
    match sch.next_due_date with
    | none => status1
    | some due =>
      if due ≤ now then Status.overdue
      else if due ≤ leadDate ∧ status1 ≠ Status.overdue then Status.upcoming
      else status1
  -- For combined intervals: overdue if EITHER condition is met
  -- For non-combined: only overdue if BOTH are met  (per the source comment)
  match sch.is_combined, sch.next_due_mileage, sch.next_due_date with
  | false, some ndm, some due =>
    let mileageOverdue := ndm ≤ M
    let dateOverdue := due ≤ now
    if ¬ mileageOverdue ∧ ¬ dateOverdue then
      let mileageUpcoming := ndm ≤ M + leadMiles
      let dateUpcoming := due ≤ leadDate
      if mileageUpcoming ∨ dateUpcoming then Status.upcoming else Status.ok
    else
      if mileageOverdue ∨ dateOverdue then Status.overdue else Status.upcoming
  | _, _, _ => status2

/-- Phase 2 over the whole table: recompute the status of the vehicle's
rows (write-on-change is observationally the same in this model). -/
def phase2 (leadMiles leadDays : Nat) (now : Int) (v : Vehicle)
    (scheds : List VehicleSchedule) : List VehicleSchedule :=
  scheds.map fun sch =>
    if sch.vehicle_id == v.id then
      { sch with status := computeStatus leadMiles leadDays now v.current_mileage sch }
    else sch

/-- `updateVehicleStatuses(vehicleId)`: no-op when the vehicle does not
exist; otherwise read the owner's lead settings (defaults 500 mi / 30
days), run Phase 1 (catch-up advancement plus backfills) and Phase 2
(status evaluation). -/
def updateVehicleStatuses (am : Int → Nat → Int) (now : Int)
    (s : EngineState) (vid : String) : EngineState :=
  match s.vehicles.find? (fun v => v.id == vid) with
  | none => s
  | some v =>
    let user := s.users.find? (fun u => u.id == v.user_id)
    let leadMiles := (user.map (fun u => u.reminder_lead_miles)).getD 500
    let leadDays := (user.map (fun u => u.reminder_lead_days)).getD 30
    let p1 := phase1 am now v s.schedules s.history s.fresh
    { s with
      schedules := phase2 leadMiles leadDays now v p1.1
      history := p1.2.1
      fresh := p1.2.2 }

/-- `generateScheduleForVehicle(vehicleId)`: no-op when the vehicle does
not exist; otherwise match rules, deduplicate by service definition
(highest priority first), insert one schedule row per winning rule (plus
assumed-history backfill), then run status evaluation. -/
def generateScheduleForVehicle (am : Int → Nat → Int) (now : Int)
    (s : EngineState) (vid : String) : EngineState :=
  match s.vehicles.find? (fun v => v.id == vid) with
  | none => s
  | some v =>
    let uniqueRules := dedupByService (matchingRules s v) []
    let s1 := uniqueRules.foldl (fun acc r => insertForRule am now v r acc) s
    updateVehicleStatuses am now s1 vid

/-! ## Spec-side vocabulary

Definitions following the specification's wording of §4.3, used to state
the status-combination claims and compare them with `computeStatus`. -/

/-- Spec §4.3 mileage sub-status: `overdue` if `currentMileage >=
nextDueMileage`; else `upcoming` if within `leadMiles`; else `ok`. -/
def specMileageSub (leadMiles M : Nat) : Option Nat → Status
  | none => Status.ok
  | some ndm =>
    if ndm ≤ M then Status.overdue
    else if ndm ≤ M + leadMiles then Status.upcoming
    else Status.ok

/-- Spec §4.3 date sub-status: analogous using `now` vs `nextDueDate` and
`leadDate = now + leadDays`. -/
def specDateSub (leadDays : Nat) (now : Int) : Option Int → Status
  | none => Status.ok
  | some due =>
    if due ≤ now then Status.overdue
    else if due ≤ now + leadDays then Status.upcoming
    else Status.ok

/-- Spec §4.3 combined rule: `overdue` if either sub-status is overdue,
else `upcoming` if either is upcoming, else `ok`. -/
def specCombine (a b : Status) : Status :=
  if a = Status.overdue ∨ b = Status.overdue then Status.overdue
  else if a = Status.upcoming ∨ b = Status.upcoming then Status.upcoming
  else Status.ok

/-! ## Concrete rows used by witnesses and counterexamples -/

/-- A concrete instantiation of calendar-month addition (30-day months),
used only to instantiate the abstract `am` parameter in closed
statements. -/
def amDays : Int → Nat → Int := fun d m => d + 30 * m

/-- Example owner with the default lead windows. -/
def exUser : UserPrefs :=
  { id := "u1", reminder_lead_miles := 500, reminder_lead_days := 30 }

/-- Example vehicle at 45,000 miles. -/
def exVehicle : Vehicle :=
  { id := "v1", user_id := "u1", year := 2021, make := "Toyota",
    model := "4Runner", engine := none, drive_type := some "4WD",
    current_mileage := 45000 }

/-- A non-combined schedule entry whose date is past due (due day 90,
now day 100) while its mileage is not (45,000 < 50,000). -/
def exNonCombined : VehicleSchedule :=
  { id := "s1", vehicle_id := "v1", service_definition_id := "sd1",
    mileage_interval := some 10000, month_interval := some 12,
    is_combined := false,
    next_due_mileage := some 50000, next_due_date := some 90,
    status := Status.ok }

/-- State holding `exVehicle` and the single entry `exNonCombined`. -/
def exStateNonCombined : EngineState :=
  { vehicles := [exVehicle], users := [exUser], serviceDefs := [],
    rules := [], schedules := [exNonCombined], history := [], fresh := 0 }

/-- A combined entry at 50,000-mile due for a vehicle now at 50,200
miles: Phase 1 will advance it and insert a backfill at 50,000. -/
def exAdvance : VehicleSchedule :=
  { id := "s3", vehicle_id := "v1", service_definition_id := "sd1",
    mileage_interval := some 10000, month_interval := none,
    is_combined := true,
    next_due_mileage := some 50000, next_due_date := none,
    status := Status.ok }

/-- State for the advancement scenario (§8): `exVehicle` at 50,200 miles
with the 50,000-due entry `exAdvance`. -/
def exStateAdvance : EngineState :=
  { vehicles := [{ exVehicle with current_mileage := 50200 }],
    users := [exUser], serviceDefs := [], rules := [],
    schedules := [exAdvance], history := [], fresh := 0 }

/-- The row the generation loop inserts for a matched rule: all fields
except the generated id, expressed as a relation between the rule and
the inserted entry. -/
def entryFromRule (am : Int → Nat → Int) (now : Int) (v : Vehicle)
    (r : ScheduleRule) (e : VehicleSchedule) : Prop :=
  e.vehicle_id = v.id ∧
  e.service_definition_id = r.service_definition_id ∧
  e.mileage_interval = r.mileage_interval ∧
  e.month_interval = r.month_interval ∧
  e.is_combined = r.is_combined ∧
  e.status = Status.ok ∧
  e.next_due_mileage = genNextDueMileage v.current_mileage r.mileage_interval ∧
  e.next_due_date = genNextDueDate am now r.month_interval

/-- A make-specific oil-change rule, priority 10, interval 10,000 mi. -/
def exRule : ScheduleRule :=
  { id := "r1", service_definition_id := "sd1", year_min := none,
    year_max := none, make := none, model := none, engine := none,
    drive_type := none, mileage_interval := some 10000,
    month_interval := none, is_combined := true, priority := 10 }

/-- A generic fallback rule for the same service, priority 0, interval
7,500 mi. -/
def exRuleLow : ScheduleRule :=
  { id := "r2", service_definition_id := "sd1", year_min := none,
    year_max := none, make := none, model := none, engine := none,
    drive_type := none, mileage_interval := some 7500,
    month_interval := none, is_combined := true, priority := 0 }

/-- Registration-time state: `exVehicle` with no schedule yet, one
active service definition and two competing rules for it. -/
def exStateGen : EngineState :=
  { vehicles := [exVehicle], users := [exUser],
    serviceDefs := [{ id := "sd1", is_active := true }],
    rules := [exRuleLow, exRule], schedules := [], history := [],
    fresh := 0 }

/-- An entry with no due points at all (rule had no usable interval). -/
def exInertEntry : VehicleSchedule :=
  { id := "s6", vehicle_id := "v1", service_definition_id := "sd1",
    mileage_interval := none, month_interval := none, is_combined := true,
    next_due_mileage := none, next_due_date := none, status := Status.ok }

/-- A rule with a zero mileage interval and no month interval. -/
def exZeroRule : ScheduleRule :=
  { id := "r3", service_definition_id := "sd1", year_min := none,
    year_max := none, make := none, model := none, engine := none,
    drive_type := none, mileage_interval := some 0, month_interval := none,
    is_combined := true, priority := 0 }

/-- State holding `exVehicle` and the interval-less entry. -/
def exStateInert : EngineState :=
  { vehicles := [exVehicle], users := [exUser], serviceDefs := [],
    rules := [], schedules := [exInertEntry], history := [], fresh := 0 }

/-- A zero-mileage copy of `exVehicle` for the registration claims. -/
def exVehicleNew : Vehicle := { exVehicle with current_mileage := 0 }

/-- Registration-time state for the zero-mileage vehicle. -/
def exStateGenNew : EngineState :=
  { exStateGen with vehicles := [exVehicleNew] }

/-- The columns of a `vehicle_schedules` row that the Status Evaluator
never rewrites (everything except `next_due_mileage`, `next_due_date`
and `status`). -/
def staticEq (a b : VehicleSchedule) : Prop :=
  b.id = a.id ∧
  b.vehicle_id = a.vehicle_id ∧
  b.service_definition_id = a.service_definition_id ∧
  b.mileage_interval = a.mileage_interval ∧
  b.month_interval = a.month_interval ∧
  b.is_combined = a.is_combined

/-- An entry's due mileage lies strictly ahead of mileage `M` (whenever
it has a truthy mileage interval and a non-null due mileage): under this
condition neither Phase-1 branch fires for the entry. -/
def mileageCurrent (M : Nat) (sch : VehicleSchedule) : Prop :=
  ∀ i n, truthyNat sch.mileage_interval = some i →
    sch.next_due_mileage = some n → M < n

/-- Two history rows do not collide on the backfill key: either the
first is not attached to a schedule entry, or the rows differ in
`vehicle_schedule_id` or in `mileage_at_service`. -/
def distinctKeys (a b : ServiceHistoryRecord) : Prop :=
  a.vehicle_schedule_id = none ∨
  a.vehicle_schedule_id ≠ b.vehicle_schedule_id ∨
  a.mileage_at_service ≠ b.mileage_at_service

/-- At most one history row per `(vehicle_schedule_id,
mileage_at_service)` pair (among rows attached to a schedule entry). -/
def backfillUnique (hist : List ServiceHistoryRecord) : Prop :=
  List.Pairwise distinctKeys hist

/-! ## Helper lemmas -/

/-- Unfolding JS truthiness: a truthy value is the stored value and is
nonzero. -/
theorem truthyNat_some {o : Option Nat} {i : Nat} (h : truthyNat o = some i) :
    o = some i ∧ i ≠ 0 := by
  cases o with
  | none => simp [truthyNat] at h
  | some n =>
    by_cases hn : n = 0
    · simp [truthyNat, hn] at h
    · simp only [truthyNat, hn, if_false, Option.some.injEq] at h
      subst h
      exact ⟨rfl, hn⟩

/-- The next interval boundary above `M` lies strictly above `M`. -/
theorem lt_next_boundary (M i : Nat) (hi : i ≠ 0) : M < M / i * i + i :=
  Nat.lt_div_mul_add (Nat.pos_of_ne_zero hi)

/-- `advanceEntry` only rewrites the due fields: every other column of
the row is preserved. -/
theorem advanceEntry_fields (am : Int → Nat → Int) (now : Int) (M : Nat)
    (sch : VehicleSchedule) :
    (advanceEntry am now M sch).id = sch.id ∧
    (advanceEntry am now M sch).vehicle_id = sch.vehicle_id ∧
    (advanceEntry am now M sch).service_definition_id = sch.service_definition_id ∧
    (advanceEntry am now M sch).mileage_interval = sch.mileage_interval ∧
    (advanceEntry am now M sch).month_interval = sch.month_interval ∧
    (advanceEntry am now M sch).is_combined = sch.is_combined ∧
    (advanceEntry am now M sch).status = sch.status := by
  cases hmi : truthyNat sch.mileage_interval with
  | none => simp [advanceEntry, hmi]
  | some interval =>
    cases hnd : sch.next_due_mileage with
    | none => simp [advanceEntry, hmi, hnd]
    | some ndm =>
      by_cases hM : ndm ≤ M
      · by_cases hg : ndm < M / interval * interval + interval
        · simp [advanceEntry, hmi, hnd, hM, hg]
        · simp [advanceEntry, hmi, hnd, hM, hg]
      · simp [advanceEntry, hmi, hnd, hM]

/-- Dispatch lemma for `advanceEntry`: either the entry is left alone
(and its due mileage was already strictly ahead), or the trigger held
and the due fields are rewritten. -/
theorem advanceEntry_cases (am : Int → Nat → Int) (now : Int) (M : Nat)
    (sch : VehicleSchedule) :
    (advanceEntry am now M sch = sch ∧ mileageCurrent M sch) ∨
    ∃ interval ndm, truthyNat sch.mileage_interval = some interval ∧
      sch.next_due_mileage = some ndm ∧ ndm ≤ M ∧
      advanceEntry am now M sch =
        { sch with
          next_due_mileage := some (M / interval * interval + interval)
          next_due_date :=
            match truthyNat sch.month_interval with
            | some m => some (am now m)
            | none => sch.next_due_date } := by
  cases hmi : truthyNat sch.mileage_interval with
  | none =>
    refine Or.inl ⟨by simp [advanceEntry, hmi], ?_⟩
    intro i n h1 h2
    rw [hmi] at h1
    exact Option.noConfusion h1
  | some interval =>
    cases hnd : sch.next_due_mileage with
    | none =>
      refine Or.inl ⟨by simp [advanceEntry, hmi, hnd], ?_⟩
      intro i n h1 h2
      rw [hnd] at h2
      exact Option.noConfusion h2
    | some ndm =>
      by_cases hM : ndm ≤ M
      · refine Or.inr ⟨interval, ndm, rfl, rfl, hM, ?_⟩
        have hguard : ndm < M / interval * interval + interval :=
          lt_of_le_of_lt hM (lt_next_boundary M interval (truthyNat_some hmi).2)
        simp [advanceEntry, hmi, hnd, hM, hguard]
      · refine Or.inl ⟨by simp [advanceEntry, hmi, hnd, hM], ?_⟩
        intro i n h1 h2
        rw [hnd] at h2
        obtain rfl : ndm = n := Option.some.inj h2
        omega

/-- After `advanceEntry`, the entry's due mileage is strictly ahead of
the current mileage. -/
theorem advanceEntry_mileageCurrent (am : Int → Nat → Int) (now : Int)
    (M : Nat) (sch : VehicleSchedule) :
    mileageCurrent M (advanceEntry am now M sch) := by
  rcases advanceEntry_cases am now M sch with ⟨heq, h⟩ | ⟨interval, ndm, hmi, hnd, hM, heq⟩
  · rw [heq]; exact h
  · rw [heq]
    intro i n h1 h2
    simp only at h1 h2
    rw [hmi] at h1
    obtain rfl : n = M / interval * interval + interval := (Option.some.inj h2).symm
    exact lt_next_boundary M interval (truthyNat_some hmi).2

/-- `advanceEntry` does nothing when the entry's due mileage is already
strictly ahead. -/
theorem advanceEntry_id (am : Int → Nat → Int) (now : Int) (M : Nat)
    (sch : VehicleSchedule) (h : mileageCurrent M sch) :
    advanceEntry am now M sch = sch := by
  rcases advanceEntry_cases am now M sch with ⟨heq, _⟩ | ⟨interval, ndm, hmi, hnd, hM, _⟩
  · exact heq
  · exact absurd (h interval ndm hmi hnd) (by omega)

/-- Dispatch lemma for `backfillFor`: either nothing happens (and the
entry's due mileage was already strictly ahead), or the trigger held and
the conditional insert runs at the last boundary. -/
theorem backfillFor_cases (now : Int) (v : Vehicle) (sch : VehicleSchedule)
    (hist : List ServiceHistoryRecord) (fresh : Nat) :
    (backfillFor now v sch hist fresh = (hist, fresh) ∧
      mileageCurrent v.current_mileage sch) ∨
    ∃ interval ndm, truthyNat sch.mileage_interval = some interval ∧
      sch.next_due_mileage = some ndm ∧ ndm ≤ v.current_mileage ∧
      backfillFor now v sch hist fresh =
        (if 0 < v.current_mileage / interval * interval ∧
            hasBackfill hist sch.id (v.current_mileage / interval * interval) = false
          then
            (mkBackfill (toString fresh) v.id sch.id sch.service_definition_id now
                (v.current_mileage / interval * interval) :: hist,
              fresh + 1)
          else (hist, fresh)) := by
  cases hmi : truthyNat sch.mileage_interval with
  | none =>
    refine Or.inl ⟨by simp [backfillFor, hmi], ?_⟩
    intro i n h1 h2
    rw [hmi] at h1
    exact Option.noConfusion h1
  | some interval =>
    cases hnd : sch.next_due_mileage with
    | none =>
      refine Or.inl ⟨by simp [backfillFor, hmi, hnd], ?_⟩
      intro i n h1 h2
      rw [hnd] at h2
      exact Option.noConfusion h2
    | some ndm =>
      by_cases hM : ndm ≤ v.current_mileage
      · refine Or.inr ⟨interval, ndm, rfl, rfl, hM, ?_⟩
        have hguard : ndm < v.current_mileage / interval * interval + interval :=
          lt_of_le_of_lt hM
            (lt_next_boundary v.current_mileage interval (truthyNat_some hmi).2)
        simp only [backfillFor, hmi, hnd, hM, if_true, hguard]
      · refine Or.inl ⟨by simp [backfillFor, hmi, hnd, hM], ?_⟩
        intro i n h1 h2
        rw [hnd] at h2
        obtain rfl : ndm = n := Option.some.inj h2
        omega

/-- `backfillFor` does nothing when the entry's due mileage is already
strictly ahead. -/
theorem backfillFor_id (now : Int) (v : Vehicle) (sch : VehicleSchedule)
    (hist : List ServiceHistoryRecord) (fresh : Nat)
    (h : mileageCurrent v.current_mileage sch) :
    backfillFor now v sch hist fresh = (hist, fresh) := by
  rcases backfillFor_cases now v sch hist fresh with ⟨heq, _⟩ |
    ⟨interval, ndm, hmi, hnd, hM, _⟩
  · exact heq
  · exact absurd (h interval ndm hmi hnd) (by omega)

/-- Case-folding a nonempty string is nonempty. -/
theorem strLower_ne_empty {e : String} (h : e ≠ "") : strLower e ≠ "" := by
  intro hc
  apply h
  have hd : e.data.map Char.toLower = [] := congrArg String.data hc
  have hnil : e.data = [] := by simpa using hd
  cases e
  simp_all

/-- Phase 1's entry component: every row is rewritten by `advanceEntry`
(for the vehicle's rows) or passed through, independently of the
threaded history and id counter. -/
theorem phase1_fst (am : Int → Nat → Int) (now : Int) (v : Vehicle) :
    ∀ (scheds : List VehicleSchedule) (hist : List ServiceHistoryRecord) (fresh : Nat),
      (phase1 am now v scheds hist fresh).1 =
        scheds.map (fun sch =>
          if sch.vehicle_id == v.id then advanceEntry am now v.current_mileage sch
          else sch) := by
  intro scheds
  induction scheds with
  | nil => intro hist fresh; rfl
  | cons sch rest ih =>
    intro hist fresh
    by_cases h : sch.vehicle_id = v.id
    · simp [phase1, h, ih]
    · simp [phase1, h, ih _ _]

/-- Phase 1 is the identity when every row of the vehicle already has
its due mileage strictly ahead of the current mileage. -/
theorem phase1_id (am : Int → Nat → Int) (now : Int) (v : Vehicle) :
    ∀ (scheds : List VehicleSchedule) (hist : List ServiceHistoryRecord) (fresh : Nat),
      (∀ sch ∈ scheds, sch.vehicle_id = v.id →
        mileageCurrent v.current_mileage sch) →
      phase1 am now v scheds hist fresh = (scheds, hist, fresh) := by
  intro scheds
  induction scheds with
  | nil => intro hist fresh _; rfl
  | cons sch rest ih =>
    intro hist fresh h
    by_cases hv : sch.vehicle_id = v.id
    · have hm := h sch (by simp) hv
      simp [phase1, hv, backfillFor_id now v sch hist fresh hm,
        advanceEntry_id am now v.current_mileage sch hm,
        ih hist fresh (fun x hx => h x (by simp [hx]))]
    · simp [phase1, hv, ih hist fresh (fun x hx => h x (by simp [hx]))]

/-- A single conditional backfill insertion preserves key-uniqueness of
the history table. -/
theorem backfillFor_unique (now : Int) (v : Vehicle) (sch : VehicleSchedule)
    (hist : List ServiceHistoryRecord) (fresh : Nat)
    (h : backfillUnique hist) :
    backfillUnique (backfillFor now v sch hist fresh).1 := by
  rcases backfillFor_cases now v sch hist fresh with ⟨heq, _⟩ |
    ⟨interval, ndm, hmi, hnd, hM, heq⟩
  · rw [heq]; exact h
  · rw [heq]
    by_cases hc : 0 < v.current_mileage / interval * interval ∧
        hasBackfill hist sch.id (v.current_mileage / interval * interval) = false
    · simp only [hc, if_true]
      refine List.Pairwise.cons ?_ h
      intro b hb
      have hfalse := hc.2
      unfold hasBackfill at hfalse
      have hall := List.any_eq_false.mp hfalse b hb
      simp only [Bool.and_eq_true, beq_iff_eq, not_and] at hall
      by_cases hvs : b.vehicle_schedule_id = some sch.id
      · right; right
        intro hmm
        have hbm : b.mileage_at_service = v.current_mileage / interval * interval := by
          simpa [mkBackfill] using hmm.symm
        exact hall hvs hbm
      · right; left
        intro hcc
        apply hvs
        rw [← hcc]
        rfl
    · simp only [hc, if_false]
      exact h

/-- Phase 1 preserves key-uniqueness of the history table. -/
theorem phase1_unique (am : Int → Nat → Int) (now : Int) (v : Vehicle) :
    ∀ (scheds : List VehicleSchedule) (hist : List ServiceHistoryRecord) (fresh : Nat),
      backfillUnique hist →
      backfillUnique (phase1 am now v scheds hist fresh).2.1 := by
  intro scheds
  induction scheds with
  | nil => intro hist fresh h; exact h
  | cons sch rest ih =>
    intro hist fresh h
    by_cases hv : sch.vehicle_id = v.id
    · simpa [phase1, hv] using
        ih _ _ (backfillFor_unique now v sch hist fresh h)
    · simpa [phase1, hv] using ih hist fresh h

/-- `computeStatus` does not read the stored status. -/
theorem computeStatus_status_irrel (leadMiles leadDays : Nat) (now : Int)
    (M : Nat) (sch : VehicleSchedule) (st : Status) :
    computeStatus leadMiles leadDays now M { sch with status := st } =
      computeStatus leadMiles leadDays now M sch := by
  cases sch
  rfl

/-- Phase 2 is idempotent: recomputing statuses of already-recomputed
rows changes nothing. -/
theorem phase2_idem (leadMiles leadDays : Nat) (now : Int) (v : Vehicle)
    (scheds : List VehicleSchedule) :
    phase2 leadMiles leadDays now v (phase2 leadMiles leadDays now v scheds) =
      phase2 leadMiles leadDays now v scheds := by
  unfold phase2
  rw [List.map_map]
  apply List.map_congr_left
  intro sch _
  simp only [Function.comp]
  by_cases h : (sch.vehicle_id == v.id) = true
  · rw [if_pos h]
    have h2 : (({ sch with
        status := computeStatus leadMiles leadDays now v.current_mileage sch } :
          VehicleSchedule).vehicle_id == v.id) = true := h
    rw [if_pos h2]
    simp [computeStatus_status_irrel]
  · rw [if_neg h, if_neg h]

/-- Status updates do not affect `mileageCurrent`. -/
theorem mileageCurrent_status (M : Nat) (sch : VehicleSchedule) (st : Status)
    (h : mileageCurrent M sch) :
    mileageCurrent M { sch with status := st } := by
  intro i n h1 h2
  exact h i n h1 h2

/-!  ## C2  -/

/-- C2: `updateVehicleStatuses` is idempotent — with unchanged mileage,
date and lead settings, a second call returns the state of the first
call unchanged (identical status/nextDueMileage/nextDueDate on every
entry) and in particular appends zero service-history rows. -/
theorem c2_updateVehicleStatuses_idempotent (am : Int → Nat → Int)
    (now : Int) (s : EngineState) (vid : String) :
    updateVehicleStatuses am now (updateVehicleStatuses am now s vid) vid =
      updateVehicleStatuses am now s vid ∧
    (updateVehicleStatuses am now (updateVehicleStatuses am now s vid) vid).history =
      (updateVehicleStatuses am now s vid).history := by
  cases hfind : s.vehicles.find? (fun v => v.id == vid) with
  | none =>
    have h1 : updateVehicleStatuses am now s vid = s := by
      simp [updateVehicleStatuses, hfind]
    rw [h1]
    exact ⟨h1, by rw [h1]⟩
  | some v =>
    set r := updateVehicleStatuses am now s vid with hr
    have hrv : r.vehicles = s.vehicles := by
      rw [hr]
      simp [updateVehicleStatuses, hfind]
    have hru : r.users = s.users := by
      rw [hr]
      simp [updateVehicleStatuses, hfind]
    set lm := ((s.users.find? (fun u => u.id == v.user_id)).map
      (fun u => u.reminder_lead_miles)).getD 500 with hlm
    set ld := ((s.users.find? (fun u => u.id == v.user_id)).map
      (fun u => u.reminder_lead_days)).getD 30 with hld
    have hrsch : r.schedules =
        phase2 lm ld now v
          (phase1 am now v s.schedules s.history s.fresh).1 := by
      rw [hr]
      simp [updateVehicleStatuses, hfind, hlm, hld]
    -- every row of the vehicle in `r.schedules` is strictly ahead
    have hcur : ∀ sch ∈ r.schedules, sch.vehicle_id = v.id →
        mileageCurrent v.current_mileage sch := by
      rw [hrsch, phase1_fst]
      unfold phase2
      rw [List.map_map]
      intro sch hmem hvid
      obtain ⟨sch0, hmem0, rfl⟩ := List.mem_map.mp hmem
      simp only [Function.comp] at hvid ⊢
      by_cases h0 : (sch0.vehicle_id == v.id) = true
      · rw [if_pos h0]
        have hb : ((advanceEntry am now v.current_mileage sch0).vehicle_id ==
            v.id) = true := by
          rw [(advanceEntry_fields am now v.current_mileage sch0).2.1]
          exact h0
        rw [if_pos hb]
        exact mileageCurrent_status _ _ _
          (advanceEntry_mileageCurrent am now v.current_mileage sch0)
      · rw [if_neg h0, if_neg h0] at hvid
        exact absurd hvid (by simpa using h0)
    have hfind2 : r.vehicles.find? (fun x => x.id == vid) = some v := by
      rw [hrv]; exact hfind
    have hstep : phase1 am now v r.schedules r.history r.fresh =
        (r.schedules, r.history, r.fresh) :=
      phase1_id am now v r.schedules r.history r.fresh hcur
    have hmain : updateVehicleStatuses am now r vid = r := by
      rw [updateVehicleStatuses, hfind2]
      simp only [hstep, hru]
      rw [hrsch]
      rw [phase2_idem]
      rw [← hrsch]
      rw [← hru]
    exact ⟨hmain, by rw [hmain]⟩

/-!  ## C5  -/

/-- C5: Phase-1 backfills are deduplicated.  First, under the
advancement trigger, `backfillFor` leaves the history table unchanged
when a record for the `(scheduleEntryId, lastBoundary)` pair already
exists, and otherwise (for a positive boundary) inserts exactly the one
backfill record at the last boundary.  Second, `updateVehicleStatuses`
preserves the invariant that at most one history record exists per
`(scheduleEntryId, mileageAtService)` pair, no matter how often it
runs. -/
theorem c5_backfill_dedup :
    (∀ (now : Int) (v : Vehicle) (sch : VehicleSchedule)
        (hist : List ServiceHistoryRecord) (fresh : Nat) (interval ndm : Nat),
      truthyNat sch.mileage_interval = some interval →
      sch.next_due_mileage = some ndm →
      ndm ≤ v.current_mileage →
      (hasBackfill hist sch.id (v.current_mileage / interval * interval) = true →
        (backfillFor now v sch hist fresh).1 = hist) ∧
      (hasBackfill hist sch.id (v.current_mileage / interval * interval) = false →
        0 < v.current_mileage / interval * interval →
        (backfillFor now v sch hist fresh).1 =
          mkBackfill (toString fresh) v.id sch.id sch.service_definition_id now
            (v.current_mileage / interval * interval) :: hist)) ∧
    (∀ (am : Int → Nat → Int) (now : Int) (s : EngineState) (vid : String),
      backfillUnique s.history →
      backfillUnique (updateVehicleStatuses am now s vid).history) := by
  constructor
  · intro now v sch hist fresh interval ndm hmi hnd hM
    rcases backfillFor_cases now v sch hist fresh with ⟨heq, hcur⟩ |
      ⟨interval2, ndm2, hmi2, hnd2, hM2, heq⟩
    · exact absurd (hcur interval ndm hmi hnd) (by omega)
    · obtain rfl : interval2 = interval := by
        rw [hmi] at hmi2; exact (Option.some.inj hmi2).symm
      constructor
      · intro hex
        rw [heq]
        simp [hex]
      · intro hex hpos
        rw [heq]
        simp [hex, hpos]
  · intro am now s vid h
    cases hfind : s.vehicles.find? (fun v => v.id == vid) with
    | none => simpa [updateVehicleStatuses, hfind] using h
    | some v =>
      have : (updateVehicleStatuses am now s vid).history =
          (phase1 am now v s.schedules s.history s.fresh).2.1 := by
        simp [updateVehicleStatuses, hfind]
      rw [this]
      exact phase1_unique am now v s.schedules s.history s.fresh h

/-- Witness for C5 at the advancement scenario: starting from an empty
history, evaluation at 50,200 miles inserts the single backfill at
50,000 and the key-uniqueness invariant holds afterwards. -/
theorem c5_witness :
    backfillUnique (updateVehicleStatuses amDays 100 exStateAdvance "v1").history ∧
    (updateVehicleStatuses amDays 100 exStateAdvance "v1").history.map
      (fun h => h.mileage_at_service) = [50000] :=
  ⟨c5_backfill_dedup.2 amDays 100 exStateAdvance "v1" List.Pairwise.nil,
    by decide⟩

/-- `insertForRule` appends exactly one schedule row, whose fields are
determined by the rule (`entryFromRule`). -/
theorem insertForRule_spec (am : Int → Nat → Int) (now : Int) (v : Vehicle)
    (r : ScheduleRule) (s : EngineState) :
    ∃ e : VehicleSchedule,
      (insertForRule am now v r s).schedules = s.schedules ++ [e] ∧
      entryFromRule am now v r e := by
  unfold insertForRule entryFromRule
  cases h : genLastServiceMileage v.current_mileage r.mileage_interval with
  | none =>
    exact ⟨_, rfl, rfl, rfl, rfl, rfl, rfl, rfl, rfl, rfl⟩
  | some lastB =>
    by_cases hp : 0 < lastB
    · simp only [hp, if_true]
      exact ⟨_, rfl, rfl, rfl, rfl, rfl, rfl, rfl, rfl, rfl⟩
    · simp only [hp, if_false]
      exact ⟨_, rfl, rfl, rfl, rfl, rfl, rfl, rfl, rfl, rfl⟩

/-- `insertForRule` does not touch the read-only tables. -/
theorem insertForRule_state (am : Int → Nat → Int) (now : Int) (v : Vehicle)
    (r : ScheduleRule) (s : EngineState) :
    (insertForRule am now v r s).vehicles = s.vehicles ∧
    (insertForRule am now v r s).users = s.users ∧
    (insertForRule am now v r s).serviceDefs = s.serviceDefs ∧
    (insertForRule am now v r s).rules = s.rules := by
  unfold insertForRule
  cases h : genLastServiceMileage v.current_mileage r.mileage_interval with
  | none => exact ⟨rfl, rfl, rfl, rfl⟩
  | some lastB =>
    by_cases hp : 0 < lastB
    · simp [hp]
    · simp [hp]

/-- `insertForRule` inserts no history row when there is no last
boundary. -/
theorem insertForRule_hist_of_none (am : Int → Nat → Int) (now : Int)
    (v : Vehicle) (r : ScheduleRule) (s : EngineState)
    (h : genLastServiceMileage v.current_mileage r.mileage_interval = none) :
    (insertForRule am now v r s).history = s.history := by
  unfold insertForRule
  rw [h]

/-- At zero mileage there is never a last boundary. -/
theorem genLastServiceMileage_zero (mi : Option Nat) :
    genLastServiceMileage 0 mi = none := by
  cases htr : truthyNat mi <;> simp [genLastServiceMileage, htr]

/-- The generation fold appends one row per rule, in order, with fields
given by `entryFromRule`. -/
theorem foldl_insert_schedules (am : Int → Nat → Int) (now : Int) (v : Vehicle) :
    ∀ (rules : List ScheduleRule) (s : EngineState),
      ∃ es, (rules.foldl (fun acc r => insertForRule am now v r acc) s).schedules =
          s.schedules ++ es ∧
        List.Forall₂ (entryFromRule am now v) rules es := by
  intro rules
  induction rules with
  | nil => intro s; exact ⟨[], by simp, List.Forall₂.nil⟩
  | cons r rest ih =>
    intro s
    obtain ⟨e, hsch, hrel⟩ := insertForRule_spec am now v r s
    obtain ⟨es, hes, hrels⟩ := ih (insertForRule am now v r s)
    refine ⟨e :: es, ?_, List.Forall₂.cons hrel hrels⟩
    simp only [List.foldl_cons]
    rw [hes, hsch]
    simp

/-- The generation fold does not touch the read-only tables. -/
theorem foldl_insert_state (am : Int → Nat → Int) (now : Int) (v : Vehicle) :
    ∀ (rules : List ScheduleRule) (s : EngineState),
      (rules.foldl (fun acc r => insertForRule am now v r acc) s).vehicles = s.vehicles ∧
      (rules.foldl (fun acc r => insertForRule am now v r acc) s).users = s.users := by
  intro rules
  induction rules with
  | nil => intro s; exact ⟨rfl, rfl⟩
  | cons r rest ih =>
    intro s
    have h1 := insertForRule_state am now v r s
    have h2 := ih (insertForRule am now v r s)
    simp only [List.foldl_cons]
    exact ⟨h2.1.trans h1.1, h2.2.trans h1.2.1⟩

/-- The generation fold inserts no history rows for a zero-mileage
vehicle. -/
theorem foldl_insert_hist_zero (am : Int → Nat → Int) (now : Int) (v : Vehicle)
    (hM : v.current_mileage = 0) :
    ∀ (rules : List ScheduleRule) (s : EngineState),
      (rules.foldl (fun acc r => insertForRule am now v r acc) s).history = s.history := by
  intro rules
  induction rules with
  | nil => intro s; rfl
  | cons r rest ih =>
    intro s
    simp only [List.foldl_cons]
    rw [ih (insertForRule am now v r s)]
    exact insertForRule_hist_of_none am now v r s
      (by rw [hM]; exact genLastServiceMileage_zero r.mileage_interval)

/-- From `Forall₂` to a pointwise existence on the left list. -/
theorem forall₂_exists_right {α β : Type} {R : α → β → Prop} :
    ∀ {l1 : List α} {l2 : List β}, List.Forall₂ R l1 l2 →
      ∀ a ∈ l1, ∃ b ∈ l2, R a b := by
  intro l1 l2 h
  induction h with
  | nil => intro a ha; cases ha
  | cons hr _ ih =>
    intro a ha
    rcases List.mem_cons.mp ha with rfl | ha2
    · exact ⟨_, by simp, hr⟩
    · obtain ⟨b, hb, hab⟩ := ih a ha2
      exact ⟨b, by simp [hb], hab⟩

/-- From `Forall₂` to a pointwise existence on the right list. -/
theorem forall₂_exists_left {α β : Type} {R : α → β → Prop} :
    ∀ {l1 : List α} {l2 : List β}, List.Forall₂ R l1 l2 →
      ∀ b ∈ l2, ∃ a ∈ l1, R a b := by
  intro l1 l2 h
  induction h with
  | nil => intro b hb; cases hb
  | cons hr _ ih =>
    intro b hb
    rcases List.mem_cons.mp hb with rfl | hb2
    · exact ⟨_, by simp, hr⟩
    · obtain ⟨a, ha, hab⟩ := ih b hb2
      exact ⟨a, by simp [ha], hab⟩

/-!  ## C3  -/

/-- C3: with `M > 0` and interval `I > 0`, the generated entry's
`nextDueMileage` is `floor(M/I)*I + I`, this value is strictly greater
than `M`, and Phase-1 advancement (whenever its trigger holds) rewrites
`nextDueMileage` to exactly the same formula. -/
theorem c3_floor_division_invariant (am : Int → Nat → Int) (now : Int)
    (v : Vehicle) (r : ScheduleRule) (s : EngineState) (I : Nat)
    (hM : 0 < v.current_mileage) (hI : r.mileage_interval = some I)
    (hIpos : 0 < I) :
    (∃ e, (insertForRule am now v r s).schedules = s.schedules ++ [e] ∧
      e.next_due_mileage = some (v.current_mileage / I * I + I)) ∧
    v.current_mileage < v.current_mileage / I * I + I ∧
    (∀ (sch : VehicleSchedule) (ndm : Nat),
      truthyNat sch.mileage_interval = some I →
      sch.next_due_mileage = some ndm →
      ndm ≤ v.current_mileage →
      (advanceEntry am now v.current_mileage sch).next_due_mileage =
        some (v.current_mileage / I * I + I)) := by
  have htr : truthyNat r.mileage_interval = some I := by
    simp [truthyNat, hI]
    omega
  refine ⟨?_, lt_next_boundary _ _ (by omega), ?_⟩
  · obtain ⟨e, hsch, hrel⟩ := insertForRule_spec am now v r s
    refine ⟨e, hsch, ?_⟩
    rw [hrel.2.2.2.2.2.2.1]
    simp [genNextDueMileage, htr, hM]
  · intro sch ndm hmi hnd hle
    rcases advanceEntry_cases am now v.current_mileage sch with ⟨_, hcur⟩ |
      ⟨interval, ndm2, hmi2, hnd2, _, heq⟩
    · exact absurd (hcur I ndm hmi hnd) (by omega)
    · rw [heq]
      obtain rfl : I = interval := by
        rw [hmi] at hmi2
        exact Option.some.inj hmi2
      simp

/-- Witness for C3 at the registration scenario: 45,000 miles, interval
10,000 ⇒ due at 50,000 > 45,000. -/
theorem c3_witness :
    45000 < 45000 / 10000 * 10000 + 10000 ∧
    (∃ e, (insertForRule amDays 100 exVehicle exRule exStateGen).schedules =
        exStateGen.schedules ++ [e] ∧
      e.next_due_mileage = some (45000 / 10000 * 10000 + 10000)) :=
  ⟨(c3_floor_division_invariant amDays 100 exVehicle exRule exStateGen 10000
      (by decide) rfl (by decide)).2.1,
    (c3_floor_division_invariant amDays 100 exVehicle exRule exStateGen 10000
      (by decide) rfl (by decide)).1⟩

/-!  ## C1  -/

/-- C1 (evaluation at the failing input): for the non-combined entry
`exNonCombined`, whose date is past due but whose mileage is not,
`updateVehicleStatuses` stores status `overdue` — although the claim
(and the source's own comment "For non-combined: only overdue if BOTH
are met") requires `overdue` only when both conditions are past due. -/
theorem c1_nonCombined_dateOnly_is_marked_overdue :
    (updateVehicleStatuses amDays 100 exStateNonCombined "v1").schedules =
      [{ exNonCombined with status := Status.overdue }] ∧
    exVehicle.current_mileage < 50000 ∧
    ((90 : Int) ≤ 100) ∧
    (updateVehicleStatuses amDays 100 exStateNonCombined "v1").history = [] := by
  decide

/-!  ## C4  -/

/-- C4: for a combined entry (`isCombined = true`) with at least one due
point set, the status computed by the evaluator is exactly the spec's
whichever-comes-first combination of the mileage and date sub-statuses;
in particular a past-due date alone forces `overdue`. -/
theorem c4_combined_status_is_spec_combination
    (leadMiles leadDays : Nat) (now : Int) (M : Nat)
    (sch : VehicleSchedule)
    (hc : sch.is_combined = true)
    (hset : sch.next_due_mileage ≠ none ∨ sch.next_due_date ≠ none) :
    computeStatus leadMiles leadDays now M sch =
      specCombine (specMileageSub leadMiles M sch.next_due_mileage)
        (specDateSub leadDays now sch.next_due_date) ∧
    (∀ due, sch.next_due_date = some due → due ≤ now →
      computeStatus leadMiles leadDays now M sch = Status.overdue) := by
  obtain ⟨i, vi, sd, mi, mo, ic, ndm, ndd, st⟩ := sch
  simp only at hc
  subst hc
  constructor
  · cases ndm <;> cases ndd <;>
      simp only [computeStatus, specMileageSub, specDateSub, specCombine] <;>
      split_ifs <;> simp_all
  · intro due hdue hnow
    simp only at hdue
    subst hdue
    cases ndm <;>
      simp only [computeStatus] <;>
      split_ifs <;> simp_all

/-- Witness for C4 at the spec's own example: interval 10000, combined,
vehicle 500 miles short of due (49,500 of 50,000 with lead 500) but the
date 30 days past due: status is `overdue`, date-triggered. -/
theorem c4_witness :
    computeStatus 500 30 100 49500
        { id := "s2", vehicle_id := "v1", service_definition_id := "sd1",
          mileage_interval := some 10000, month_interval := some 12,
          is_combined := true, next_due_mileage := some 50000,
          next_due_date := some 70, status := Status.ok } =
      specCombine (specMileageSub 500 49500 (some 50000))
        (specDateSub 30 100 (some 70)) ∧
    specMileageSub 500 49500 (some 50000) = Status.upcoming ∧
    specDateSub 30 100 (some 70) = Status.overdue ∧
    specCombine Status.upcoming Status.overdue = Status.overdue := by
  refine ⟨(c4_combined_status_is_spec_combination 500 30 100 49500 _ rfl
    (Or.inl (by decide))).1, by decide, by decide, by decide⟩

/-!  ## C9  -/

/-- C9: when no vehicle with the given id exists, both
`generateScheduleForVehicle` and `updateVehicleStatuses` leave the whole
state unchanged (no error, no rows created or modified). -/
theorem c9_missing_vehicle_noop
    (am : Int → Nat → Int) (now : Int) (s : EngineState) (vid : String)
    (h : ∀ v ∈ s.vehicles, v.id ≠ vid) :
    generateScheduleForVehicle am now s vid = s ∧
    updateVehicleStatuses am now s vid = s := by
  have hfind : s.vehicles.find? (fun v => v.id == vid) = none :=
    List.find?_eq_none.mpr (fun v hv => by simpa using h v hv)
  constructor
  · simp [generateScheduleForVehicle, hfind]
  · simp [updateVehicleStatuses, hfind]

/-- Witness for C9: a state containing only vehicle `v1` is untouched by
calls for the absent id `missing`. -/
theorem c9_witness :
    generateScheduleForVehicle amDays 100 exStateNonCombined "missing" =
      exStateNonCombined ∧
    updateVehicleStatuses amDays 100 exStateNonCombined "missing" =
      exStateNonCombined :=
  c9_missing_vehicle_noop amDays 100 exStateNonCombined "missing" (by decide)

/-!  ## C10  -/

/-- C10: a vehicle whose `engine` (respectively `driveType`) is null is
compared as the empty string, so every rule specifying a nonempty engine
(drive type) value fails to match it, while a null rule-side filter
passes for any vehicle. -/
theorem c10_null_vehicle_fields_match_only_unset_filters :
    (∀ (r : ScheduleRule) (v : Vehicle) (e : String),
      v.engine = none → r.engine = some e → e ≠ "" → ruleMatches r v = false) ∧
    (∀ (r : ScheduleRule) (v : Vehicle),
      r.engine = none → optFilter r.engine (v.engine.getD "") = true) ∧
    (∀ (r : ScheduleRule) (v : Vehicle) (e : String),
      v.drive_type = none → r.drive_type = some e → e ≠ "" → ruleMatches r v = false) ∧
    (∀ (r : ScheduleRule) (v : Vehicle),
      r.drive_type = none → optFilter r.drive_type (v.drive_type.getD "") = true) := by
  have hlow : ∀ e : String, e ≠ "" → lowerEq e "" = false := by
    intro e he
    have : strLower "" = "" := rfl
    simp [lowerEq, this]
    exact strLower_ne_empty he
  refine ⟨?_, ?_, ?_, ?_⟩
  · intro r v e hv hr he
    simp [ruleMatches, hv, hr, optFilter, hlow e he]
  · intro r v hr
    simp [optFilter, hr]
  · intro r v e hv hr he
    simp [ruleMatches, hv, hr, optFilter, hlow e he]
  · intro r v hr
    simp [optFilter, hr]

/-- Witness for C10: the engine-less `exVehicle` is excluded by a rule
demanding engine `V6`, and a null engine filter passes for it. -/
theorem c10_witness :
    ruleMatches
        { id := "r9", service_definition_id := "sd9", year_min := none,
          year_max := none, make := none, model := none,
          engine := some "V6", drive_type := none,
          mileage_interval := some 5000, month_interval := none,
          is_combined := true, priority := 0 }
        exVehicle = false ∧
    optFilter (none : Option String) (exVehicle.engine.getD "") = true := by
  refine ⟨c10_null_vehicle_fields_match_only_unset_filters.1 _ exVehicle "V6"
      rfl rfl (by decide),
    c10_null_vehicle_fields_match_only_unset_filters.2.1
      { id := "r9", service_definition_id := "sd9", year_min := none,
        year_max := none, make := none, model := none,
        engine := none, drive_type := none,
        mileage_interval := some 5000, month_interval := none,
        is_combined := true, priority := 0 }
      exVehicle rfl⟩

/-- An entry with no due points evaluates to `ok`. -/
theorem computeStatus_none (leadMiles leadDays : Nat) (now : Int) (M : Nat)
    (e : VehicleSchedule) (h1 : e.next_due_mileage = none)
    (h2 : e.next_due_date = none) :
    computeStatus leadMiles leadDays now M e = Status.ok := by
  cases hb : e.is_combined <;> simp [computeStatus, h1, h2, hb]

/-- Rewriting the status with its current value is the identity. -/
theorem status_update_self (e : VehicleSchedule) (h : e.status = Status.ok) :
    ({ e with status := Status.ok } : VehicleSchedule) = e := by
  cases e
  simp_all

/-! ## C8 -/

/-- C8: a rule with neither interval set (a zero mileage interval
counting as unset) generates an entry with null due fields and status
`ok`; such an entry is returned untouched, at its position, by every
invocation of `updateVehicleStatuses`; and a zero mileage interval
short-circuits both Phase-1 effects (no division, no advancement, no
backfill). -/
theorem c8_intervalless_entry_stays_ok :
    (∀ (am : Int → Nat → Int) (now : Int) (v : Vehicle) (r : ScheduleRule)
        (s : EngineState),
      (r.mileage_interval = none ∨ r.mileage_interval = some 0) →
      (r.month_interval = none ∨ r.month_interval = some 0) →
      ∃ e, (insertForRule am now v r s).schedules = s.schedules ++ [e] ∧
        e.next_due_mileage = none ∧ e.next_due_date = none ∧
        e.status = Status.ok ∧
        (insertForRule am now v r s).history = s.history) ∧
    (∀ (am : Int → Nat → Int) (now : Int) (s : EngineState) (vid : String)
        (k : Nat) (e : VehicleSchedule),
      s.schedules[k]? = some e →
      e.next_due_mileage = none → e.next_due_date = none →
      e.status = Status.ok →
      (updateVehicleStatuses am now s vid).schedules[k]? = some e) ∧
    (∀ (am : Int → Nat → Int) (now : Int) (M : Nat) (v : Vehicle)
        (sch : VehicleSchedule) (hist : List ServiceHistoryRecord) (fresh : Nat),
      sch.mileage_interval = some 0 →
      advanceEntry am now M sch = sch ∧
      backfillFor now v sch hist fresh = (hist, fresh)) := by
  refine ⟨?_, ?_, ?_⟩
  · intro am now v r s h1 h2
    have htr1 : truthyNat r.mileage_interval = none := by
      rcases h1 with h | h <;> simp [truthyNat, h]
    have htr2 : truthyNat r.month_interval = none := by
      rcases h2 with h | h <;> simp [truthyNat, h]
    obtain ⟨e, hsch, hrel⟩ := insertForRule_spec am now v r s
    refine ⟨e, hsch, ?_, ?_, hrel.2.2.2.2.2.1, ?_⟩
    · rw [hrel.2.2.2.2.2.2.1]
      simp [genNextDueMileage, htr1]
    · rw [hrel.2.2.2.2.2.2.2]
      simp [genNextDueDate, htr2]
    · exact insertForRule_hist_of_none am now v r s
        (by simp [genLastServiceMileage, htr1])
  · intro am now s vid k e hk h1 h2 h3
    cases hfind : s.vehicles.find? (fun x => x.id == vid) with
    | none => simpa [updateVehicleStatuses, hfind] using hk
    | some v =>
      have hsch : (updateVehicleStatuses am now s vid).schedules =
          phase2 (((s.users.find? (fun u => u.id == v.user_id)).map
              (fun u => u.reminder_lead_miles)).getD 500)
            (((s.users.find? (fun u => u.id == v.user_id)).map
              (fun u => u.reminder_lead_days)).getD 30)
            now v (phase1 am now v s.schedules s.history s.fresh).1 := by
        simp [updateVehicleStatuses, hfind]
      rw [hsch, phase1_fst]
      unfold phase2
      rw [List.map_map, List.getElem?_map, hk]
      have hadv : advanceEntry am now v.current_mileage e = e := by
        rcases advanceEntry_cases am now v.current_mileage e with ⟨heq, _⟩ |
          ⟨interval, ndm, _, hnd, _, _⟩
        · exact heq
        · rw [h1] at hnd
          exact Option.noConfusion hnd
      simp only [Option.map_some', Function.comp]
      by_cases hb : (e.vehicle_id == v.id) = true
      · rw [if_pos hb, hadv]
        have hb2 : ((advanceEntry am now v.current_mileage e).vehicle_id ==
            v.id) = true := by rw [hadv]; exact hb
        rw [hadv] at hb2
        rw [if_pos hb2]
        rw [computeStatus_none _ _ _ _ e h1 h2, status_update_self e h3]
      · rw [if_neg hb, if_neg hb]
  · intro am now M v sch hist fresh h0
    have htr : truthyNat sch.mileage_interval = none := by
      simp [truthyNat, h0]
    constructor
    · simp [advanceEntry, htr]
    · simp [backfillFor, htr]

/-- Witness for C8: the interval-less entry `exInertEntry` is untouched
by evaluation; the zero-interval rule generates a null-due `ok` entry;
and both Phase-1 effects skip a zero-interval entry. -/
theorem c8_witness :
    (updateVehicleStatuses amDays 100 exStateInert "v1").schedules[0]? =
      some exInertEntry ∧
    (∃ e, (insertForRule amDays 100 exVehicle exZeroRule exStateInert).schedules =
        exStateInert.schedules ++ [e] ∧
      e.next_due_mileage = none ∧ e.next_due_date = none ∧
      e.status = Status.ok ∧
      (insertForRule amDays 100 exVehicle exZeroRule exStateInert).history =
        exStateInert.history) := by
  refine ⟨c8_intervalless_entry_stays_ok.2.1 amDays 100 exStateInert "v1" 0
      exInertEntry (by decide) (by decide) (by decide) (by decide),
    c8_intervalless_entry_stays_ok.1 amDays 100 exVehicle exZeroRule
      exStateInert (Or.inr rfl) (Or.inl rfl)⟩

/-! ## C7 -/

/-- C7: registering a vehicle at mileage 0 creates, for every winning
rule with mileage interval `I > 0`, an entry due at exactly `I`, and the
whole registration (generation plus the evaluation it triggers) adds no
history row. -/
theorem c7_zero_mileage_vehicle (am : Int → Nat → Int) (now : Int)
    (s : EngineState) (vid : String) (v : Vehicle)
    (hv : s.vehicles.find? (fun x => x.id == vid) = some v)
    (hM : v.current_mileage = 0)
    (hpre : ∀ e ∈ s.schedules, e.vehicle_id ≠ v.id) :
    (generateScheduleForVehicle am now s vid).history = s.history ∧
    (∀ r ∈ dedupByService (matchingRules s v) [], ∀ I,
      r.mileage_interval = some I → 0 < I →
      ∃ e ∈ (generateScheduleForVehicle am now s vid).schedules,
        e.vehicle_id = v.id ∧
        e.service_definition_id = r.service_definition_id ∧
        e.next_due_mileage = some I) := by
  have hgen : generateScheduleForVehicle am now s vid =
      updateVehicleStatuses am now
        ((dedupByService (matchingRules s v) []).foldl
          (fun acc r => insertForRule am now v r acc) s) vid := by
    rw [generateScheduleForVehicle, hv]
  set uniq := dedupByService (matchingRules s v) [] with huniq
  set s1 := uniq.foldl (fun acc r => insertForRule am now v r acc) s with hs1
  obtain ⟨es, hes, hrel⟩ := foldl_insert_schedules am now v uniq s
  have hstate := foldl_insert_state am now v uniq s
  have hhist : s1.history = s.history := foldl_insert_hist_zero am now v hM uniq s
  have hfind1 : s1.vehicles.find? (fun x => x.id == vid) = some v := by
    rw [hs1, hstate.1]
    exact hv
  have hcur : ∀ sch ∈ s1.schedules, sch.vehicle_id = v.id →
      mileageCurrent v.current_mileage sch := by
    intro sch hmem _
    rw [hes] at hmem
    rcases List.mem_append.mp hmem with hold | hnew
    · intro i n hti hn
      exact absurd (by assumption) (hpre sch hold)
    · obtain ⟨r, _, hre⟩ := forall₂_exists_left hrel sch hnew
      intro i n hti hn
      rw [hre.2.2.1] at hti
      rw [hre.2.2.2.2.2.2.1, hM] at hn
      unfold genNextDueMileage at hn
      rw [hti] at hn
      simp only [Nat.lt_irrefl, if_false, Option.some.injEq] at hn
      have := (truthyNat_some hti).2
      omega
  refine ⟨?_, ?_⟩
  · rw [hgen]
    cases hfind2 : s1.vehicles.find? (fun x => x.id == vid) with
    | none => rw [hfind1] at hfind2; exact Option.noConfusion hfind2
    | some v2 =>
      obtain rfl : v = v2 := by
        rw [hfind1] at hfind2
        exact Option.some.inj hfind2
      have : (updateVehicleStatuses am now s1 vid).history =
          (phase1 am now v s1.schedules s1.history s1.fresh).2.1 := by
        simp [updateVehicleStatuses, hfind1]
      rw [this, phase1_id am now v s1.schedules s1.history s1.fresh hcur]
      exact hhist
  · intro r hr I hI hIpos
    rw [hgen]
    set lm1 : Nat := ((s1.users.find? (fun u => u.id == v.user_id)).map
      (fun u => u.reminder_lead_miles)).getD 500 with hlm1
    set ld1 : Nat := ((s1.users.find? (fun u => u.id == v.user_id)).map
      (fun u => u.reminder_lead_days)).getD 30 with hld1
    have hsch2 : (updateVehicleStatuses am now s1 vid).schedules =
        phase2 lm1 ld1 now v s1.schedules := by
      simp [updateVehicleStatuses, hfind1, hlm1, hld1,
        phase1_id am now v s1.schedules s1.history s1.fresh hcur]
    rw [hsch2]
    obtain ⟨e, hemem, hre⟩ := forall₂_exists_right hrel r hr
    have hein : e ∈ s1.schedules := by
      rw [hes]
      exact List.mem_append.mpr (Or.inr hemem)
    have hndm : e.next_due_mileage = some I := by
      rw [hre.2.2.2.2.2.2.1, hM]
      unfold genNextDueMileage
      have htr : truthyNat r.mileage_interval = some I := by
        simp [truthyNat, hI]
        omega
      rw [htr]
      simp
    have hbv : (e.vehicle_id == v.id) = true := by
      rw [hre.1]
      exact beq_self_eq_true v.id
    refine ⟨{ e with
        status := computeStatus lm1 ld1 now v.current_mileage e },
      ?_, hre.1, hre.2.1, hndm⟩
    unfold phase2
    refine List.mem_map.mpr ⟨e, hein, ?_⟩
    rw [if_pos hbv]

/-- Witness for C7: registering the zero-mileage vehicle against the two
competing oil-change rules creates no history and yields an entry due at
10,000 miles (the winning rule's interval). -/
theorem c7_witness :
    (generateScheduleForVehicle amDays 100 exStateGenNew "v1").history =
      exStateGenNew.history ∧
    (∃ e ∈ (generateScheduleForVehicle amDays 100 exStateGenNew "v1").schedules,
      e.vehicle_id = exVehicleNew.id ∧
      e.service_definition_id = exRule.service_definition_id ∧
      e.next_due_mileage = some 10000) := by
  have h := c7_zero_mileage_vehicle amDays 100 exStateGenNew "v1" exVehicleNew
    (by decide) (by decide) (by decide)
  refine ⟨h.1, ?_⟩
  exact h.2 exRule (by decide) 10000 rfl (by decide)

/-! ## C6 machinery -/

/-- Deduplication only returns rules of the input list. -/
theorem dedupByService_mem :
    ∀ {l : List ScheduleRule} {seen : List String} {r : ScheduleRule},
      r ∈ dedupByService l seen → r ∈ l := by
  intro l
  induction l with
  | nil => intro seen r h; cases h
  | cons x xs ih =>
    intro seen r h
    rw [dedupByService] at h
    split at h
    · exact List.mem_cons.mpr (Or.inr (ih h))
    · rcases List.mem_cons.mp h with rfl | h2
      · exact List.mem_cons.mpr (Or.inl rfl)
      · exact List.mem_cons.mpr (Or.inr (ih h2))

/-- Deduplication never returns a rule whose service definition was
already seen. -/
theorem dedupByService_not_seen :
    ∀ {l : List ScheduleRule} {seen : List String} {r : ScheduleRule},
      r ∈ dedupByService l seen → r.service_definition_id ∉ seen := by
  intro l
  induction l with
  | nil => intro seen r h; cases h
  | cons x xs ih =>
    intro seen r h
    rw [dedupByService] at h
    split at h
    · exact ih h
    · rcases List.mem_cons.mp h with rfl | h2
      · assumption
      · intro hc
        exact ih h2 (List.mem_cons.mpr (Or.inr hc))

/-- No rule of an already-seen service definition survives, counted. -/
theorem dedupByService_countP_seen (l : List ScheduleRule)
    (seen : List String) (sdid : String) (h : sdid ∈ seen) :
    (dedupByService l seen).countP
      (fun r => r.service_definition_id == sdid) = 0 := by
  rw [List.countP_eq_zero]
  intro r hr
  simp only [beq_iff_eq]
  intro hc
  exact dedupByService_not_seen hr (hc ▸ h)

/-- Deduplication truncates the per-service count at one. -/
theorem dedupByService_countP :
    ∀ (l : List ScheduleRule) (seen : List String) (sdid : String),
      sdid ∉ seen →
      (dedupByService l seen).countP (fun r => r.service_definition_id == sdid) =
        min 1 (l.countP (fun r => r.service_definition_id == sdid)) := by
  intro l
  induction l with
  | nil => intro seen sdid _; simp [dedupByService]
  | cons x xs ih =>
    intro seen sdid hns
    rw [dedupByService]
    by_cases hx : x.service_definition_id ∈ seen
    · rw [if_pos hx]
      have hpx : (x.service_definition_id == sdid) = false := by
        simp only [beq_eq_false_iff_ne]
        intro hc
        exact hns (hc ▸ hx)
      rw [ih seen sdid hns]
      simp [List.countP_cons, hpx]
    · rw [if_neg hx]
      by_cases hxs : x.service_definition_id = sdid
      · have h0 := dedupByService_countP_seen xs
          (x.service_definition_id :: seen) sdid (by simp [hxs])
        rw [List.countP_cons, List.countP_cons, h0]
        simp [hxs]
      · have hns2 : sdid ∉ x.service_definition_id :: seen := by
          simp only [List.mem_cons]
          rintro (rfl | hc)
          · exact hxs rfl
          · exact hns hc
        rw [List.countP_cons, List.countP_cons, ih _ sdid hns2]
        simp [beq_eq_false_iff_ne.mpr hxs]

/-- The survivor of deduplication has maximal priority among the
same-service rules of a priority-sorted input list. -/
theorem dedupByService_max_priority :
    ∀ (l : List ScheduleRule) (seen : List String),
      l.Pairwise priorityDesc →
      ∀ r ∈ dedupByService l seen, ∀ r2 ∈ l,
        r2.service_definition_id = r.service_definition_id →
        r2.priority ≤ r.priority := by
  intro l
  induction l with
  | nil => intro seen _ r hr; cases hr
  | cons x xs ih =>
    intro seen hp r hr r2 hr2 hsd
    have hp1 : ∀ y ∈ xs, priorityDesc x y :=
      fun y hy => List.rel_of_pairwise_cons hp hy
    have hp2 : xs.Pairwise priorityDesc := List.Pairwise.of_cons hp
    rw [dedupByService] at hr
    split at hr
    · -- x's service was seen: r comes from xs and cannot be x's service
      rcases List.mem_cons.mp hr2 with rfl | h2
      · exfalso
        apply dedupByService_not_seen hr
        rw [← hsd]
        assumption
      · exact ih seen hp2 r hr r2 h2 hsd
    · rcases List.mem_cons.mp hr with rfl | hrest
      · rcases List.mem_cons.mp hr2 with rfl | h2
        · exact le_refl _
        · exact hp1 r2 h2
      · rcases List.mem_cons.mp hr2 with rfl | h2
        · exfalso
          apply dedupByService_not_seen hrest
          rw [hsd]
          exact List.mem_cons.mpr (Or.inl rfl)
        · exact ih _ hp2 r hrest r2 h2 hsd

/-- The matching query's result is sorted by priority, descending. -/
theorem matchingRules_sorted (s : EngineState) (v : Vehicle) :
    (matchingRules s v).Pairwise priorityDesc :=
  List.sorted_insertionSort priorityDesc _

/-- `Forall₂` transfers `countP` across pointwise agreeing predicates. -/
theorem forall₂_countP {α β : Type} {R : α → β → Prop}
    {p : α → Bool} {q : β → Bool} (hpq : ∀ a b, R a b → p a = q b) :
    ∀ {l1 : List α} {l2 : List β}, List.Forall₂ R l1 l2 →
      l1.countP p = l2.countP q := by
  intro l1 l2 h
  induction h with
  | nil => rfl
  | cons hr _ ih =>
    rw [List.countP_cons, List.countP_cons, ih, hpq _ _ hr]

/-- A reflexive relation holds pointwise between a list and itself. -/
theorem forall₂_self_of {α : Type} {R : α → α → Prop} (h : ∀ a, R a a) :
    ∀ l : List α, List.Forall₂ R l l := by
  intro l
  induction l with
  | nil => exact List.Forall₂.nil
  | cons x xs ih => exact List.Forall₂.cons (h x) ih

/-- A pointwise relation between a list and its image under a map. -/
theorem forall₂_map_of {α : Type} {R : α → α → Prop} (f : α → α)
    (h : ∀ a, R a (f a)) : ∀ l : List α, List.Forall₂ R l (l.map f) := by
  intro l
  induction l with
  | nil => exact List.Forall₂.nil
  | cons x xs ih => exact List.Forall₂.cons (h x) ih

/-- The Status Evaluator rewrites only due fields and status: every row
of the table keeps its identity columns, positionally. -/
theorem upd_schedules_static (am : Int → Nat → Int) (now : Int)
    (s : EngineState) (vid : String) :
    List.Forall₂ staticEq s.schedules
      (updateVehicleStatuses am now s vid).schedules := by
  have hrefl : ∀ a : VehicleSchedule, staticEq a a :=
    fun a => ⟨rfl, rfl, rfl, rfl, rfl, rfl⟩
  cases hfind : s.vehicles.find? (fun x => x.id == vid) with
  | none =>
    have : updateVehicleStatuses am now s vid = s := by
      simp [updateVehicleStatuses, hfind]
    rw [this]
    exact forall₂_self_of hrefl s.schedules
  | some v =>
    have hsch : (updateVehicleStatuses am now s vid).schedules =
        phase2 (((s.users.find? (fun u => u.id == v.user_id)).map
            (fun u => u.reminder_lead_miles)).getD 500)
          (((s.users.find? (fun u => u.id == v.user_id)).map
            (fun u => u.reminder_lead_days)).getD 30)
          now v (phase1 am now v s.schedules s.history s.fresh).1 := by
      simp [updateVehicleStatuses, hfind]
    rw [hsch, phase1_fst]
    unfold phase2
    rw [List.map_map]
    apply forall₂_map_of
    intro a
    simp only [Function.comp]
    by_cases hb : (a.vehicle_id == v.id) = true
    · rw [if_pos hb]
      have hf := advanceEntry_fields am now v.current_mileage a
      have hb2 : ((advanceEntry am now v.current_mileage a).vehicle_id ==
          v.id) = true := by rw [hf.2.1]; exact hb
      rw [if_pos hb2]
      exact ⟨hf.1, hf.2.1, hf.2.2.1, hf.2.2.2.1, hf.2.2.2.2.1, hf.2.2.2.2.2.1⟩
    · rw [if_neg hb, if_neg hb]
      exact hrefl a

/-! ## C6 -/

/-- C6: when several matching rules target the same service definition,
registration creates exactly one entry for it (for a vehicle with no
pre-existing entry for that service), and that entry snapshots the
intervals of a matching rule of maximal priority among them. -/
theorem c6_priority_resolution (am : Int → Nat → Int) (now : Int)
    (s : EngineState) (vid : String) (v : Vehicle) (sdid : String)
    (hv : s.vehicles.find? (fun x => x.id == vid) = some v)
    (hpre : s.schedules.countP
      (fun e => e.vehicle_id == v.id && e.service_definition_id == sdid) = 0)
    (hmulti : 2 ≤ (matchingRules s v).countP
      (fun r => r.service_definition_id == sdid)) :
    (generateScheduleForVehicle am now s vid).schedules.countP
      (fun e => e.vehicle_id == v.id && e.service_definition_id == sdid) = 1 ∧
    ∃ r ∈ matchingRules s v, r.service_definition_id = sdid ∧
      (∀ r2 ∈ matchingRules s v, r2.service_definition_id = sdid →
        r2.priority ≤ r.priority) ∧
      ∃ e ∈ (generateScheduleForVehicle am now s vid).schedules,
        e.vehicle_id = v.id ∧ e.service_definition_id = sdid ∧
        e.mileage_interval = r.mileage_interval ∧
        e.month_interval = r.month_interval := by
  have hgen : generateScheduleForVehicle am now s vid =
      updateVehicleStatuses am now
        ((dedupByService (matchingRules s v) []).foldl
          (fun acc r => insertForRule am now v r acc) s) vid := by
    rw [generateScheduleForVehicle, hv]
  set uniq := dedupByService (matchingRules s v) [] with huniq
  set s1 := uniq.foldl (fun acc r => insertForRule am now v r acc) s with hs1
  obtain ⟨es, hes, hrel⟩ := foldl_insert_schedules am now v uniq s
  -- counting: the fold appends one row per deduplicated rule
  have hcount1 : es.countP
      (fun e => e.vehicle_id == v.id && e.service_definition_id == sdid) =
      uniq.countP (fun r => r.service_definition_id == sdid) := by
    refine (forall₂_countP ?_ hrel).symm
    intro r e hre
    simp only [hre.2.1, hre.1, beq_self_eq_true, Bool.true_and]
  have hcountUniq : uniq.countP (fun r => r.service_definition_id == sdid) = 1 := by
    rw [huniq, dedupByService_countP (matchingRules s v) [] sdid (by simp)]
    omega
  have hstatic := upd_schedules_static am now s1 vid
  have hcountFinal : (updateVehicleStatuses am now s1 vid).schedules.countP
      (fun e => e.vehicle_id == v.id && e.service_definition_id == sdid) = 1 := by
    rw [← forall₂_countP ?_ hstatic]
    · rw [hes, List.countP_append, hpre, hcount1, hcountUniq]
    · intro a b hab
      simp only [hab.2.1, hab.2.2.1]
  constructor
  · rw [hgen]
    exact hcountFinal
  · -- the surviving rule
    have hpos : 0 < uniq.countP (fun r => r.service_definition_id == sdid) := by
      omega
    obtain ⟨r, hrmem, hrq⟩ := List.countP_pos_iff.mp hpos
    have hrsd : r.service_definition_id = sdid := by simpa using hrq
    refine ⟨r, dedupByService_mem hrmem, hrsd, ?_, ?_⟩
    · intro r2 h2mem h2sd
      exact dedupByService_max_priority (matchingRules s v) []
        (matchingRules_sorted s v) r hrmem r2 h2mem (by rw [h2sd, hrsd])
    · obtain ⟨e, hemem, hre⟩ := forall₂_exists_right hrel r hrmem
      have hein : e ∈ s1.schedules := by
        rw [hes]
        exact List.mem_append.mpr (Or.inr hemem)
      obtain ⟨b, hbmem, hstat⟩ :=
        forall₂_exists_right hstatic e hein
      refine ⟨b, by rw [hgen]; exact hbmem, ?_, ?_, ?_, ?_⟩
      · rw [hstat.2.1, hre.1]
      · rw [hstat.2.2.1, hre.2.1, hrsd]
      · rw [hstat.2.2.2.1, hre.2.2.1]
      · rw [hstat.2.2.2.2.1, hre.2.2.2.1]

/-- Witness for C6 at the spec's priority scenario: two rules for the
same service (priority 10, interval 10,000 vs priority 0, interval
7,500) both match; registration yields exactly one entry for it, using
the priority-10 intervals. -/
theorem c6_witness :
    (generateScheduleForVehicle amDays 100 exStateGen "v1").schedules.countP
      (fun e => e.vehicle_id == "v1" && e.service_definition_id == "sd1") = 1 ∧
    (∃ r ∈ matchingRules exStateGen exVehicle, r.service_definition_id = "sd1" ∧
      (∀ r2 ∈ matchingRules exStateGen exVehicle,
        r2.service_definition_id = "sd1" → r2.priority ≤ r.priority) ∧
      ∃ e ∈ (generateScheduleForVehicle amDays 100 exStateGen "v1").schedules,
        e.vehicle_id = "v1" ∧ e.service_definition_id = "sd1" ∧
        e.mileage_interval = r.mileage_interval ∧
        e.month_interval = r.month_interval) := by
  have h := c6_priority_resolution amDays 100 exStateGen "v1" exVehicle "sd1"
    (by decide) (by decide) (by decide)
  exact h

end Sandbox
